import Mathlib

/-!
Verification of the clipboard plugin (`src/packages/ckeditor5-clipboard/src/clipboard.js`)
against its natural-language specification.

The JavaScript plugin is shallowly embedded: attribute maps become association
lists, model nodes a small tree type, ranges flat offset pairs, and every
side-effecting engine call (`model.deleteContent`, `model.insertContent`,
marker CRUD, ...) is either recorded in an explicit effect trace or supplied as
an abstract engine operation, since the document-model engine is an external
collaborator of this plugin.
-/

namespace ClipboardModel

/-- Attribute collection of a node or of the selection, as an association list
of key/value pairs (CKEditor attribute values are arbitrary; strings suffice
for the claims at hand). -/
abbrev Attrs := List (String × String)

/-- Lookup of an attribute value by key (first binding wins, mirroring a map). -/
def getAttr : Attrs → String → Option String
  | [], _ => none
  | kv :: rest, k => if kv.1 == k then some kv.2 else getAttr rest k

/-- One `writer.setAttribute(key, value, item)` step, i.e. a `Map.set` on the
node's attribute map: replaces the value of an existing key in place,
otherwise appends the binding. -/
def setAttribute (k v : String) : Attrs → Attrs
  | [] => [(k, v)]
  | kv :: rest => if kv.1 == k then (k, v) :: rest else kv :: setAttribute k v rest

/-- The engine's `writer.setAttributes(attrs, item)`: applies
`setAttribute` for each listed pair, in order (later pairs win on key clash). -/
def setAttributes (ta : Attrs) (a : Attrs) : Attrs :=
  ta.foldl (fun acc kv => setAttribute kv.1 kv.2 acc) a

/-- Value of the last binding of a key in an attribute list, if any (the
binding that wins when the list is applied sequentially). -/
def lastAssigned : Attrs → String → Option String
  | [], _ => none
  | kv :: rest, k =>
    match lastAssigned rest k with
    | some v => some v
    | none => if kv.1 == k then some kv.2 else none

/-- Model node: a text node with attributes, or an element with a name,
attributes and children (`module:engine/model/node`). -/
inductive MNode where
  | text (attrs : Attrs) (data : String)
  | element (name : String) (attrs : Attrs) (children : List MNode)

mutual
/-- Boolean equality on model nodes (the nested `List` blocks deriving). -/
def MNode.beq : MNode → MNode → Bool
  | .text a s, .text a2 s2 => a == a2 && s == s2
  | .element n a cs, .element n2 a2 cs2 => n == n2 && a == a2 && MNode.beqList cs cs2
  | _, _ => false

/-- Boolean equality on lists of model nodes. -/
def MNode.beqList : List MNode → List MNode → Bool
  | [], [] => true
  | c :: cs, d :: ds => MNode.beq c d && MNode.beqList cs ds
  | _, _ => false
end

mutual
theorem MNode.beq_iff : ∀ a b : MNode, MNode.beq a b = true ↔ a = b
  | .text a s, .text a2 s2 => by
      simp [MNode.beq, beq_iff_eq]
  | .text _ _, .element _ _ _ => by
      simp [MNode.beq]
  | .element _ _ _, .text _ _ => by
      simp [MNode.beq]
  | .element n a cs, .element n2 a2 cs2 => by
      simp [MNode.beq, beq_iff_eq, MNode.beqList_iff cs cs2, and_assoc]

theorem MNode.beqList_iff : ∀ cs ds : List MNode, MNode.beqList cs ds = true ↔ cs = ds
  | [], [] => by simp [MNode.beqList]
  | [], _ :: _ => by simp [MNode.beqList]
  | _ :: _, [] => by simp [MNode.beqList]
  | c :: cs, d :: ds => by
      simp [MNode.beqList, MNode.beq_iff c d, MNode.beqList_iff cs ds]
end

instance : DecidableEq MNode := fun a b =>
  decidable_of_iff (MNode.beq a b = true) (MNode.beq_iff a b)

/-- The slice of the document schema the plugin consults: which element names
are registered as objects (`schema.isObject`) and which attribute keys have
`getAttributeProperties(key).isFormatting` set. -/
structure Schema where
  objectElements : List String
  formattingKeys : List String
deriving DecidableEq

/-- The engine's `schema.isObject(node)`; text nodes are never objects. -/
def Schema.isObject (s : Schema) : MNode → Bool
  | .text _ _ => false
  | .element n _ _ => s.objectElements.contains n

/-- Whether `schema.getAttributeProperties(key).isFormatting` holds. -/
def Schema.isFormatting (s : Schema) (k : String) : Bool :=
  s.formattingKeys.contains k

/-- The node's `getAttributeKeys()`. -/
def MNode.attributeKeys : MNode → List String
  | .text attrs _ => attrs.map Prod.fst
  | .element _ attrs _ => attrs.map Prod.fst

/-- Transcription of `isPlainTextFragment(documentFragment, schema)`
(clipboard.js lines 535-547): more than one top-level child disqualifies;
otherwise the single child must not be an object and must carry no attributes.
The empty-fragment case is unreachable in the pipeline (the listener returns
first when `modelFragment.childCount == 0`). -/
def isPlainTextFragment (frag : List MNode) (schema : Schema) : Bool :=
  if frag.length > 1 then
    false
  else
    match frag with
    | [] => false
    | child :: _ =>
      if schema.isObject child then
        false
      else
        (MNode.attributeKeys child).length == 0

mutual
/-- The body of the loop over `writer.createRangeIn(modelFragment).getItems()`:
`writer.setAttributes(textAttributes, item)` on every text item of a node. -/
def applyTextAttrsNode (ta : Attrs) : MNode → MNode
  | .text attrs s => .text (setAttributes ta attrs) s
  | .element n a cs => .element n a (applyTextAttrsList ta cs)

/-- `applyTextAttrsNode` mapped over a forest of nodes. -/
def applyTextAttrsList (ta : Attrs) : List MNode → List MNode
  | [] => []
  | c :: cs => applyTextAttrsNode ta c :: applyTextAttrsList ta cs
end

mutual
/-- All text runs of a node, in document order, as (attributes, data) pairs. -/
def textRunsNode : MNode → List (Attrs × String)
  | .text a s => [(a, s)]
  | .element _ _ cs => textRunsList cs

/-- All text runs of a forest, in document order. -/
def textRunsList : List MNode → List (Attrs × String)
  | [] => []
  | c :: cs => textRunsNode c ++ textRunsList cs
end

/-- Model range over a flattened document: a pair of offsets
(`module:engine/model/range` restricted to what the plugin inspects). -/
structure MRange where
  start : Nat
  endPos : Nat
deriving DecidableEq

/-- The range's `isCollapsed` getter. -/
def MRange.isCollapsed (r : MRange) : Bool := r.start == r.endPos

/-- The range's `isEqual(other)`. -/
def MRange.isEqual (r s : MRange) : Bool := decide (r = s)

/-- Transcription of the engine's `Range#containsRange(otherRange, loose)`:
a collapsed argument forces strict containment; otherwise `loose` also accepts
equal boundaries. -/
def MRange.containsRange (r other : MRange) (loose : Bool) : Bool :=
  let loose := if other.isCollapsed then false else loose
  (decide (r.start < other.start) || (loose && r.start == other.start)) &&
  (decide (other.endPos < r.endPos) || (loose && r.endPos == other.endPos))

/-- Document selection: its first range and its attribute set
(`document.selection.getFirstRange()` / `getAttributes()`). -/
structure Selection where
  range : MRange
  attrs : Attrs
deriving DecidableEq

/-- The selection's `isCollapsed` getter. -/
def Selection.isCollapsed (s : Selection) : Bool := s.range.isCollapsed

/-- Abstract document content; only engine operations replace it, so claims
about "the document is unchanged" become equalities on this component. -/
abbrev Doc := List MNode

/-- Model document: content plus selection. -/
structure DocModel where
  doc : Doc
  selection : Selection
deriving DecidableEq

/-- Native data transfer object, restricted to the fields the plugin reads or
writes: `dropEffect`, `effectAllowed` and `isCanceled`. -/
structure DataTransfer where
  dropEffect : String
  effectAllowed : String
  isCanceled : Bool
deriving DecidableEq

/-- Observable side effects of the plugin's handlers, in execution order.
Each constructor records one call into an external collaborator
(document-model engine, view writer, or native event). -/
inductive Effect where
  | openChange
  | setSelection (r : MRange)
  | deleteSelContent (doNotAutoparagraph : Bool)
  | deleteDraggedContent (r : MRange) (doNotAutoparagraph : Bool)
  | setTextAttributes (attrs : Attrs)
  | insertContent (frag : List MNode)
  | addMarker (name : String) (r : MRange)
  | updateMarker (name : String) (r : MRange)
  | removeMarker (name : String)
  | removeDraggableAttr
  | cancelThrottle
  | getSelectedContent
  | setData (mime : String)
  | preventDefault
deriving DecidableEq

/-- Whether an effect deletes document content
(either flavour of `model.deleteContent`). -/
def Effect.isDelete : Effect → Bool
  | .deleteSelContent _ => true
  | .deleteDraggedContent _ _ => true
  | _ => false

/-- Whether an effect inserts document content (`model.insertContent`). -/
def Effect.isInsert : Effect → Bool
  | .insertContent _ => true
  | _ => false

/-- Whether an effect serializes the selected content
(`editor.model.getSelectedContent`). -/
def Effect.isSerialize : Effect → Bool
  | .getSelectedContent => true
  | _ => false

/-- Effects that `_finalizeDragging(false)` is allowed to produce: pure
cleanup, never content mutation. -/
def Effect.isDragCleanup : Effect → Bool
  | .cancelThrottle => true
  | .openChange => true
  | .removeMarker _ => true
  | .removeDraggableAttr => true
  | _ => false

/-- The two drop-target markers the plugin owns
(`drop-target:position` and `drop-target:range`). -/
structure Markers where
  position : Option MRange
  range : Option MRange
deriving DecidableEq

/-- State with no drop-target markers. -/
def Markers.empty : Markers := ⟨none, none⟩

/-- At most one of the two drop-target markers exists. -/
def Markers.atMostOne (m : Markers) : Bool :=
  !(m.position.isSome && m.range.isSome)

/-- Throttle interval of `_updateMarkersThrottled` (clipboard.js line 347). -/
def throttleWait : Nat := 40

/-- State of the lodash `throttle(fn, 40)` wrapper around the marker update
(leading and trailing edges enabled, `maxWait` equal to the wait interval):
the pending argument (`lastArgs`), the timestamps lodash tracks, and the
deadline of the scheduled trailing timer, if any. -/
structure ThrottleState where
  lastArgs : Option MRange
  lastCallTime : Option Nat
  lastInvokeTime : Nat
  timerDeadline : Option Nat
deriving DecidableEq

/-- Initial lodash debounce state (`lastInvokeTime = 0`, nothing pending). -/
def ThrottleState.initial : ThrottleState := ⟨none, none, 0, none⟩

/-- lodash `shouldInvoke(time)` with `maxWait = wait`: first call ever, wait
elapsed since the last call, time moved backwards, or wait elapsed since the
last invocation. -/
def ThrottleState.shouldInvoke (t : ThrottleState) (time : Nat) : Bool :=
  match t.lastCallTime with
  | none => true
  | some lc =>
    decide (throttleWait ≤ time - lc) || decide (time < lc) ||
    decide (throttleWait ≤ time - t.lastInvokeTime)

/-- lodash `invokeFunc(time)`: consume `lastArgs` and invoke the wrapped
function with it (the `none` branch is unreachable in lodash's call sites but
kept total). Returns the invocations performed. -/
def ThrottleState.invokeFunc (t : ThrottleState) (time : Nat) :
    ThrottleState × List MRange :=
  match t.lastArgs with
  | some a => ({ t with lastArgs := none, lastInvokeTime := time }, [a])
  | none => ({ t with lastInvokeTime := time }, [])

/-- lodash's debounced entry point, i.e. a call of `_updateMarkersThrottled`:
records the call, invokes on the leading edge or when `maxWait` elapsed,
otherwise leaves the argument pending for the trailing timer. -/
def ThrottleState.call (t : ThrottleState) (time : Nat) (args : MRange) :
    ThrottleState × List MRange :=
  let isInvoking := t.shouldInvoke time
  let t := { t with lastArgs := some args, lastCallTime := some time }
  if isInvoking then
    match t.timerDeadline with
    | none =>
      let t := { t with lastInvokeTime := time,
                        timerDeadline := some (time + throttleWait) }
      t.invokeFunc time
    | some _ =>
      let t := { t with timerDeadline := some (time + throttleWait) }
      t.invokeFunc time
  else
    match t.timerDeadline with
    | none => ({ t with timerDeadline := some (time + throttleWait) }, [])
    | some _ => (t, [])

/-- lodash `remainingWait(time)` with `maxWait = wait`. -/
def ThrottleState.remainingWait (t : ThrottleState) (time : Nat) : Nat :=
  min (throttleWait - (time - t.lastCallTime.getD 0))
      (throttleWait - (time - t.lastInvokeTime))

/-- The trailing timer firing at `time`: no-op when no timer is scheduled or
the deadline has not been reached; otherwise the trailing edge invokes with the
pending argument, or the timer is rescheduled. -/
def ThrottleState.timerFire (t : ThrottleState) (time : Nat) :
    ThrottleState × List MRange :=
  match t.timerDeadline with
  | none => (t, [])
  | some d =>
    if time < d then (t, [])
    else if t.shouldInvoke time then
      let t := { t with timerDeadline := none }
      if t.lastArgs.isSome then t.invokeFunc time else (t, [])
    else
      ({ t with timerDeadline := some (time + t.remainingWait time) }, [])

/-- lodash `cancel()` (what `_removeDraggingMarkers` and `destroy` call):
clears the timer and discards the pending argument without invoking. -/
def ThrottleState.cancel (_t : ThrottleState) : ThrottleState :=
  ThrottleState.initial

/-- Plugin instance state: the model, `this._draggedRange`,
`this._draggableElement`, the drop-target markers and the throttle wrapper. -/
structure ClipState where
  model : DocModel
  draggedRange : Option MRange
  draggableElement : Option String
  markers : Markers
  throttle : ThrottleState
deriving DecidableEq

/-- External document-model engine operations the plugin invokes (spec section
6 collaborators); the plugin's claims hold for every such engine. -/
structure Engine where
  isGecko : Bool
  schema : Schema
  /-- Behaviour of `model.deleteContent(document.selection,
  { doNotAutoparagraph: true })`. -/
  deleteContent : DocModel → DocModel
  /-- Behaviour of `model.deleteContent(model.createSelection(range),
  { doNotAutoparagraph: true })` in `_finalizeDragging`. -/
  deleteRangeContent : DocModel → MRange → DocModel
  /-- Behaviour of `model.insertContent(fragment)`. -/
  insertContent : DocModel → List MNode → DocModel
  /-- Selection attributes the engine exposes after
  `writer.setSelection(range)`. -/
  attrsAt : MRange → Attrs

/-- Marker kind, determined by `targetRange.isCollapsed` in the interpolated
marker name (clipboard.js line 328). -/
inductive MarkerKind where
  | position
  | range
deriving DecidableEq

/-- The marker name string built by the template literal. -/
def MarkerKind.name : MarkerKind → String
  | .position => "drop-target:position"
  | .range => "drop-target:range"

/-- The `otherMarkerName` kind (clipboard.js line 329). -/
def MarkerKind.other : MarkerKind → MarkerKind
  | .position => .range
  | .range => .position

/-- Which marker kind a target range produces. -/
def markerKindOf (r : MRange) : MarkerKind :=
  if r.isCollapsed then .position else .range

/-- The engine's `markers.get(name).getRange()` for one of the two names. -/
def Markers.get (m : Markers) : MarkerKind → Option MRange
  | .position => m.position
  | .range => m.range

/-- Marker store update for one of the two names. -/
def Markers.set (m : Markers) : MarkerKind → Option MRange → Markers
  | .position, v => { m with position := v }
  | .range, v => { m with range := v }

/-- Transcription of the `model.change` body of `_updateMarkersThrottled`
(clipboard.js lines 324-347): update the marker of the target's kind in place
when it exists and moved, otherwise remove the stale marker of the other kind
(if present) and then add the new one. -/
def updateMarkersBody (m : Markers) (targetRange : MRange) :
    Markers × List Effect :=
  let kind := markerKindOf targetRange
  let other := kind.other
  match m.get kind with
  | some cur =>
    if !(cur.isEqual targetRange) then
      (m.set kind (some targetRange),
       [Effect.openChange, Effect.updateMarker kind.name targetRange])
    else
      (m, [Effect.openChange])
  | none =>
    match m.get other with
    | some _ =>
      ((m.set other none).set kind (some targetRange),
       [Effect.openChange, Effect.removeMarker other.name,
        Effect.addMarker kind.name targetRange])
    | none =>
      (m.set kind (some targetRange),
       [Effect.openChange, Effect.addMarker kind.name targetRange])

/-- Sequentially applying all throttled-wrapper invocations to the marker
store (each invocation runs `updateMarkersBody`). -/
def applyInvocations (m : Markers) : List MRange → Markers × List Effect
  | [] => (m, [])
  | r :: rs =>
    let (m1, tr1) := updateMarkersBody m r
    let (m2, tr2) := applyInvocations m1 rs
    (m2, tr1 ++ tr2)

/-- Transcription of `_removeDraggingMarkers` (clipboard.js lines 455-471):
cancel the throttled update, then remove each of the two markers inside its
own `model.change` block if it exists. -/
def removeDraggingMarkers (st : ClipState) : ClipState × List Effect :=
  let st1 := { st with throttle := st.throttle.cancel }
  let (st2, tr1) :=
    if st1.markers.position.isSome then
      ({ st1 with markers := { st1.markers with position := none } },
       [Effect.openChange, Effect.removeMarker "drop-target:position"])
    else (st1, [])
  let (st3, tr2) :=
    if st2.markers.range.isSome then
      ({ st2 with markers := { st2.markers with range := none } },
       [Effect.openChange, Effect.removeMarker "drop-target:range"])
    else (st2, [])
  (st3, [Effect.cancelThrottle] ++ tr1 ++ tr2)

/-- Transcription of `_clearDraggableAttributes` (clipboard.js lines 439-448):
remove the `draggable` view attribute and null the reference, if held. -/
def clearDraggableAttributes (st : ClipState) : ClipState × List Effect :=
  match st.draggableElement with
  | none => (st, [])
  | some _ =>
    ({ st with draggableElement := none }, [Effect.removeDraggableAttr])

/-- Transcription of `_finalizeDragging(moved)` (clipboard.js lines 414-432):
remove markers and the draggable attribute; if a dragged range is held, delete
its content when `moved` (with `doNotAutoparagraph: true`), then detach and
null the reference. -/
def finalizeDragging (env : Engine) (st : ClipState) (moved : Bool) :
    ClipState × List Effect :=
  let (st1, tr1) := removeDraggingMarkers st
  let (st2, tr2) := clearDraggableAttributes st1
  match st2.draggedRange with
  | none => (st2, tr1 ++ tr2)
  | some r =>
    if moved then
      ({ st2 with model := env.deleteRangeContent st2.model r,
                  draggedRange := none },
       tr1 ++ tr2 ++ [Effect.deleteDraggedContent r true])
    else
      ({ st2 with draggedRange := none }, tr1 ++ tr2)

/-- Input of the `inputTransformation` event: whether the (view) content is
empty, the model fragment `dataController.toModel(data.content,
'$clipboardHolder')` converts it to, and the `asPlainText` flag. -/
structure InputData where
  contentIsEmpty : Bool
  convertedFragment : List MNode
  asPlainText : Bool

/-- Result of running a handler: new plugin state, effect trace, and whether
`evt.stop()` was called. -/
structure HandlerResult where
  state : ClipState
  trace : List Effect
  stopped : Bool

/-- Transcription of the plugin's own `inputTransformation` listener
(clipboard.js lines 158-210): skip empty view content and empty model
fragments; otherwise, inside one `model.change`, finalize dragging (deleting
the source if the transfer effect indicates a move), run the plain-text
attribute-inheritance branch when classified as plain text, and insert. -/
def inputTransformationHandler (env : Engine) (st : ClipState)
    (dt : DataTransfer) (data : InputData) : HandlerResult :=
  if !data.contentIsEmpty then
    let modelFragment := data.convertedFragment
    if modelFragment.length == 0 then
      ⟨st, [], false⟩
    else
      let dropEffect := if env.isGecko then dt.dropEffect else dt.effectAllowed
      let moved := dropEffect == "move" || dropEffect == "copyMove"
      let (st1, trFin) := finalizeDragging env st moved
      let sel0 := st1.model.selection
      if data.asPlainText || isPlainTextFragment modelFragment env.schema then
        let formattingAttrs :=
          sel0.attrs.filter (fun kv => env.schema.isFormatting kv.1)
        let (st2, trDel) :=
          if !sel0.isCollapsed then
            ({ st1 with model := env.deleteContent st1.model },
             [Effect.deleteSelContent true])
          else (st1, [])
        let textAttributes := formattingAttrs ++ st2.model.selection.attrs
        let newFragment := applyTextAttrsList textAttributes modelFragment
        let st3 := { st2 with model := env.insertContent st2.model newFragment }
        ⟨st3,
         [Effect.openChange] ++ trFin ++ trDel ++
           [Effect.setTextAttributes textAttributes,
            Effect.insertContent newFragment],
         true⟩
      else
        let st3 := { st1 with model := env.insertContent st1.model modelFragment }
        ⟨st3, [Effect.openChange] ++ trFin ++ [Effect.insertContent modelFragment],
         true⟩
  else ⟨st, [], false⟩

/-- Dispatch of a `clipboardInput` event (clipboard.js lines 101-156 plus the
plugin's `inputTransformation` listener). The highest-priority listener stops
the event when the editor is read-only, so nothing else runs. For drops, the
resolved drop target (`findDropTargetRange`, modelled separately) is an input;
no target finalizes with `moved = false`, a target becomes the new selection
before the self-overlap check against the dragged range. The data transfer is
returned unchanged: this path never writes `dropEffect`. -/
def clipboardInputHandler (env : Engine) (st : ClipState) (readOnly : Bool)
    (method : String) (dt : DataTransfer) (resolvedTarget : Option MRange)
    (data : InputData) : HandlerResult × DataTransfer :=
  if readOnly then
    (⟨st, [], true⟩, dt)
  else if method == "drop" then
    match resolvedTarget with
    | none =>
      let (st1, tr) := finalizeDragging env st false
      (⟨st1, tr, false⟩, dt)
    | some targetRange =>
      let st1 := { st with model :=
        { st.model with selection := ⟨targetRange, env.attrsAt targetRange⟩ } }
      let trSel := [Effect.openChange, Effect.setSelection targetRange]
      match st1.draggedRange with
      | some dragged =>
        if dragged.containsRange st1.model.selection.range true then
          let (st2, tr2) := finalizeDragging env st1 false
          (⟨st2, trSel ++ tr2, false⟩, dt)
        else
          let r := inputTransformationHandler env st1 dt data
          (⟨r.state, trSel ++ r.trace, r.stopped⟩, dt)
      | none =>
        let r := inputTransformationHandler env st1 dt data
        (⟨r.state, trSel ++ r.trace, r.stopped⟩, dt)
  else
    let r := inputTransformationHandler env st dt data
    (r, dt)

/-- Transcription of the plugin's `clipboardOutput` listener (clipboard.js
lines 241-250): write both transfer representations when the serialized
content is non-empty, then, for cut only, delete the selected content (without
any `doNotAutoparagraph` option). -/
def clipboardOutputHandler (contentIsEmpty : Bool) (methodIsCut : Bool) :
    List Effect :=
  (if !contentIsEmpty then
    [Effect.setData "text/html", Effect.setData "text/plain"]
  else []) ++
  (if methodIsCut then [Effect.deleteSelContent false] else [])

/-- Transcription of `onCopyCut` (clipboard.js lines 220-228) followed by the
`clipboardOutput` listener it triggers: prevent the default, serialize the
selected content (`getSelectedContent` then `toView`), fire the output event.
`contentIsEmpty` is whether that serialized content was empty. -/
def onCopyCut (contentIsEmpty : Bool) (methodIsCut : Bool) : List Effect :=
  [Effect.preventDefault, Effect.getSelectedContent] ++
  clipboardOutputHandler contentIsEmpty methodIsCut

/-- The `copy` listener (clipboard.js line 230): always runs `onCopyCut`. -/
def copyHandler (contentIsEmpty : Bool) : List Effect :=
  onCopyCut contentIsEmpty false

/-- The `cut` listener (clipboard.js lines 231-239): read-only editors get
only `preventDefault`; otherwise `onCopyCut` runs with method `cut`. -/
def cutHandler (readOnly : Bool) (contentIsEmpty : Bool) : List Effect :=
  if readOnly then [Effect.preventDefault] else onCopyCut contentIsEmpty true

/-- Transcription of the `dragging` listener (clipboard.js lines 308-322):
read-only editors and unresolvable targets set `dropEffect` to `none`; a
resolved target goes through the throttled marker update, whose invocations
(leading edge) run the marker-update body immediately. -/
def draggingHandler (st : ClipState) (time : Nat) (readOnly : Bool)
    (resolvedTarget : Option MRange) (dt : DataTransfer) :
    ClipState × List Effect × DataTransfer :=
  if readOnly then
    (st, [], { dt with dropEffect := "none" })
  else
    match resolvedTarget with
    | some targetRange =>
      let (th, invs) := st.throttle.call time targetRange
      let (markers, tr) := applyInvocations st.markers invs
      ({ st with throttle := th, markers := markers }, tr, dt)
    | none =>
      (st, [], { dt with dropEffect := "none" })

/-- The trailing throttle timer firing at the plugin level: pending
invocations (if any) run the marker-update body. -/
def throttleTimerEvent (st : ClipState) (time : Nat) : ClipState × List Effect :=
  let (th, invs) := st.throttle.timerFire time
  let (markers, tr) := applyInvocations st.markers invs
  ({ st with throttle := th, markers := markers }, tr)

/-- Transcription of `destroy` (clipboard.js lines 82-91): detach and null the
dragged range if held, then cancel the throttled update. -/
def destroyPlugin (st : ClipState) : ClipState × List Effect :=
  let st1 :=
    match st.draggedRange with
    | some _ => { st with draggedRange := none }
    | none => st
  ({ st1 with throttle := st1.throttle.cancel }, [Effect.cancelThrottle])

/-- Events of one drag session relevant to the rate-limiting claims: a
`dragging` tick with a resolved target, the trailing throttle timer, session
finalization (drop/dragend paths reach `_finalizeDragging`), and plugin
teardown. -/
inductive DragEvent where
  | dragOver (time : Nat) (target : MRange)
  | timerFire (time : Nat)
  | finalize (moved : Bool)
  | teardown

/-- One step of the drag-session machine. -/
def dragStep (env : Engine) (st : ClipState) : DragEvent → ClipState × List Effect
  | .dragOver t r =>
    let (st1, tr, _) := draggingHandler st t false (some r) ⟨"", "", false⟩
    (st1, tr)
  | .timerFire t => throttleTimerEvent st t
  | .finalize m => finalizeDragging env st m
  | .teardown => destroyPlugin st

/-- Running the drag-session machine over a list of events, accumulating the
effect trace. -/
def dragRun (env : Engine) (st : ClipState) : List DragEvent → ClipState × List Effect
  | [] => (st, [])
  | e :: es =>
    let (st1, tr1) := dragStep env st e
    let (st2, tr2) := dragRun env st1 es
    (st2, tr1 ++ tr2)

/-- The target ranges actually applied to the document as drop-target markers
within a trace (added or updated markers). -/
def appliedTargets : List Effect → List MRange
  | [] => []
  | .addMarker _ r :: tr => r :: appliedTargets tr
  | .updateMarker _ r :: tr => r :: appliedTargets tr
  | _ :: tr => appliedTargets tr

/-- Model element for the drop-target resolver, as a node with its ancestor
chain (`element.parent` walks toward the root). -/
inductive SElement where
  | root (name : String)
  | child (name : String) (parent : SElement)
deriving DecidableEq

/-- The element's `parent` property (`null` at the root). -/
def SElement.parent : SElement → Option SElement
  | .root _ => none
  | .child _ p => some p

/-- Search direction passed to `schema.getNearestSelectionRange`. -/
inductive Dir where
  | forward
  | backward
deriving DecidableEq

/-- A view range as far as the resolver reads it: its `start` position. -/
structure VRange (VPos : Type) where
  start : VPos

/-- External engine and mapper operations `findDropTargetRange` consults,
abstract in the view/model position and range types (spec section 6
collaborators). `mappedAncestorElement` is the composite
`mapper.toModelElement(mapper.findMappedViewAncestor(view.createPositionBefore(el)))`. -/
structure ResolverEnv (VPos VElt Pos Rng : Type) where
  isGecko : Bool
  isObjectElement : SElement → Bool
  getNearestSelectionRange : Pos → Dir → Option Rng
  createPositionAt : SElement → Nat → Pos
  createRangeOn : SElement → Rng
  posParent : Pos → SElement
  toModelPosition : VPos → Pos
  toModelElement : VElt → Option SElement
  mappedAncestorElement : VElt → SElement
  rngIsCollapsed : Rng → Bool
  rngOnElement : Rng → Option SElement

/-- Transcription of `findObjectAncestorRange(model, element)` (clipboard.js
lines 592-602): walk up the ancestor chain and return `createRangeOn` the
first object element, or `null`. -/
def findObjectAncestorRange {VPos VElt Pos Rng : Type}
    (env : ResolverEnv VPos VElt Pos Rng) : SElement → Option Rng
  | .root n =>
    if env.isObjectElement (.root n) then some (env.createRangeOn (.root n))
    else none
  | .child n p =>
    if env.isObjectElement (.child n p) then
      some (env.createRangeOn (.child n p))
    else
      findObjectAncestorRange env p

/-- Transcription of `findDropTargetRange(editor, targetViewRanges,
targetViewElement)` (clipboard.js lines 554-589). The target view position is
the first range's start when ranges were supplied (browsers always supply a
non-empty array when they supply one; the empty case maps to no position).
Without a model position, a selectable range is sought inside the target
element searching forward, falling back to the object-ancestor climb.
With a model position, the search direction is forward on Gecko and backward
elsewhere, with the same fallback from the position's parent. -/
def findDropTargetRange {VPos VElt Pos Rng : Type}
    (env : ResolverEnv VPos VElt Pos Rng)
    (targetViewRanges : Option (List (VRange VPos))) (targetViewElement : VElt) :
    Option Rng :=
  let targetViewPosition :=
    match targetViewRanges with
    | some (r :: _) => some r.start
    | _ => none
  let targetModelPosition := targetViewPosition.map env.toModelPosition
  let targetModelElement :=
    match env.toModelElement targetViewElement with
    | some e => e
    | none => env.mappedAncestorElement targetViewElement
  match targetModelPosition with
  | none =>
    match env.getNearestSelectionRange
        (env.createPositionAt targetModelElement 0) .forward with
    | some newRange => some newRange
    | none => findObjectAncestorRange env targetModelElement
  | some pos =>
    match env.getNearestSelectionRange pos
        (if env.isGecko then Dir.forward else Dir.backward) with
    | some newRange => some newRange
    | none => findObjectAncestorRange env (env.posParent pos)

theorem removeDraggingMarkers_eq (st : ClipState) :
    removeDraggingMarkers st =
      ({ st with throttle := ThrottleState.initial, markers := Markers.empty },
       Effect.cancelThrottle ::
       ((if st.markers.position.isSome then
           [Effect.openChange, Effect.removeMarker "drop-target:position"]
         else []) ++
        (if st.markers.range.isSome then
           [Effect.openChange, Effect.removeMarker "drop-target:range"]
         else []))) := by
  obtain ⟨mdl, dr, de, ⟨mp, mr⟩, th⟩ := st
  cases mp <;> cases mr <;> rfl

theorem clearDraggableAttributes_eq (st : ClipState) :
    clearDraggableAttributes st =
      ({ st with draggableElement := none },
       if st.draggableElement.isSome then [Effect.removeDraggableAttr] else []) := by
  obtain ⟨mdl, dr, de, mk, th⟩ := st
  cases de <;> rfl

theorem finalizeDragging_false_spec (env : Engine) (st : ClipState) :
    (finalizeDragging env st false).1 =
      { st with throttle := ThrottleState.initial, markers := Markers.empty,
                draggableElement := none, draggedRange := none } ∧
    ∀ e ∈ (finalizeDragging env st false).2, e.isDragCleanup = true := by
  obtain ⟨mdl, dr, de, ⟨mp, mr⟩, th⟩ := st
  cases dr <;> cases de <;> cases mp <;> cases mr <;>
    exact ⟨rfl, by intro e he; fin_cases he <;> rfl⟩

theorem finalizeDragging_draggedRange (env : Engine) (st : ClipState) (m : Bool) :
    (finalizeDragging env st m).1.draggedRange = none := by
  obtain ⟨mdl, dr, de, ⟨mp, mr⟩, th⟩ := st
  cases dr <;> cases m <;> cases de <;> cases mp <;> cases mr <;> rfl

theorem finalizeDragging_idle (env : Engine) (st : ClipState) (m : Bool)
    (h : st.draggedRange = none) :
    (finalizeDragging env st m).1.model = st.model ∧
    ∀ e ∈ (finalizeDragging env st m).2, e.isDelete = false := by
  obtain ⟨mdl, dr, de, ⟨mp, mr⟩, th⟩ := st
  cases dr with
  | none => cases m <;> cases de <;> cases mp <;> cases mr <;>
      exact ⟨rfl, by intro e he; fin_cases he <;> rfl⟩
  | some r => exact absurd h (by simp)

/-- Claim C10: `_finalizeDragging(false)` (drop rejected, self-overlap,
cancellation, or a dragend that is not a completed move) mutates no document
content: the resulting state only has the drop-target markers removed, the
draggable attribute cleared, the throttled update cancelled, and the dragged
range detached and nulled; its effect trace is pure cleanup, containing no
content deletion and no insertion. -/
theorem finalizeDragging_false_frame_C10 :
    ∀ (env : Engine) (st : ClipState),
      (finalizeDragging env st false).1 =
        { st with throttle := ThrottleState.initial, markers := Markers.empty,
                  draggableElement := none, draggedRange := none } ∧
      (∀ e ∈ (finalizeDragging env st false).2, e.isDragCleanup = true) ∧
      (∀ e ∈ (finalizeDragging env st false).2,
        e.isDelete = false ∧ e.isInsert = false) := by
  intro env st
  obtain ⟨h1, h2⟩ := finalizeDragging_false_spec env st
  refine ⟨h1, h2, fun e he => ?_⟩
  have := h2 e he
  cases e <;> simp_all [Effect.isDragCleanup, Effect.isDelete, Effect.isInsert]

/-- Claim C6: finalizing a drag session is idempotent. A second
`_finalizeDragging` call right after a first one changes no document content
and performs no second deletion (the dragged-range reference is already
nulled, so the deletion branch is unreachable), and calling it when no drag
session is active is safe and leaves the document unchanged. The embedding is
total, so neither call can raise an error. -/
theorem finalizeDragging_idempotent_C6 :
    ∀ (env : Engine) (st : ClipState) (m1 m2 : Bool),
      ((finalizeDragging env (finalizeDragging env st m1).1 m2).1.model =
         (finalizeDragging env st m1).1.model ∧
       (∀ e ∈ (finalizeDragging env (finalizeDragging env st m1).1 m2).2,
         e.isDelete = false)) ∧
      ((finalizeDragging env { st with draggedRange := none } m2).1.model =
         st.model ∧
       (∀ e ∈ (finalizeDragging env { st with draggedRange := none } m2).2,
         e.isDelete = false)) := by
  intro env st m1 m2
  constructor
  · exact finalizeDragging_idle env _ m2 (finalizeDragging_draggedRange env st m1)
  · exact finalizeDragging_idle env _ m2 rfl

/-- Claim C7: a pasted or dropped fragment with zero children is a no-op for
the insertion listener: when the view content is empty, or the converted model
fragment has zero top-level nodes, the state is returned untouched and the
effect trace is empty — in particular no `model.change` transaction is opened
(no `openChange` effect) and `evt.stop()` is not called. -/
theorem emptyFragment_noop_C7 :
    ∀ (env : Engine) (st : ClipState) (dt : DataTransfer)
      (frag : List MNode) (apt ce : Bool),
      inputTransformationHandler env st dt ⟨true, frag, apt⟩ = ⟨st, [], false⟩ ∧
      inputTransformationHandler env st dt ⟨ce, [], apt⟩ = ⟨st, [], false⟩ := by
  intro env st dt frag apt ce
  exact ⟨rfl, by cases ce <;> rfl⟩

/-- Marker operations the plugin ever performs on the drop-target markers: a
throttled-update invocation (`updateMarkersBody`) or the removal of both in
`_removeDraggingMarkers`. -/
inductive MarkerOp where
  | update (r : MRange)
  | removeAll

/-- Marker-store component of one marker operation (the `removeAll` result is
the marker component of `removeDraggingMarkers_eq`). -/
def applyMarkerOp (m : Markers) : MarkerOp → Markers
  | .update r => (updateMarkersBody m r).1
  | .removeAll => Markers.empty

theorem updateMarkersBody_atMostOne (m : Markers) (r : MRange)
    (h : m.atMostOne = true) : ((updateMarkersBody m r).1).atMostOne = true := by
  obtain ⟨mp, mr⟩ := m
  cases hk : markerKindOf r <;> cases mp <;> cases mr <;>
    simp_all [updateMarkersBody, MarkerKind.other, Markers.get, Markers.set,
      Markers.atMostOne] <;>
    split <;> simp_all [Markers.atMostOne]

theorem applyMarkerOps_atMostOne (ops : List MarkerOp) (m : Markers)
    (h : m.atMostOne = true) : (ops.foldl applyMarkerOp m).atMostOne = true := by
  induction ops generalizing m with
  | nil => exact h
  | cons op rest ih =>
    cases op with
    | update r => exact ih _ (updateMarkersBody_atMostOne m r h)
    | removeAll => exact ih _ rfl

theorem dragCleanup_not_content (e : Effect) (h : e.isDragCleanup = true) :
    e.isDelete = false ∧ e.isInsert = false := by
  cases e <;> simp_all [Effect.isDragCleanup, Effect.isDelete, Effect.isInsert]

/-- Claim C5: at most one of `drop-target:position` and `drop-target:range`
exists at any instant. Starting from no markers, any sequence of the plugin's
marker operations (throttled updates and `_removeDraggingMarkers`) preserves
the exclusivity; `_removeDraggingMarkers` leaves no marker at all; and when
the target kind switches, the update body removes the stale marker of the
other kind strictly before adding the new one (the effect lists below are in
execution order). -/
theorem markerExclusivity_C5 :
    (∀ ops : List MarkerOp,
       (ops.foldl applyMarkerOp Markers.empty).atMostOne = true) ∧
    (∀ st : ClipState, (removeDraggingMarkers st).1.markers = Markers.empty) ∧
    (∀ (p : Nat) (s : MRange),
       updateMarkersBody ⟨none, some s⟩ ⟨p, p⟩ =
         (⟨some ⟨p, p⟩, none⟩,
          [Effect.openChange, Effect.removeMarker "drop-target:range",
           Effect.addMarker "drop-target:position" ⟨p, p⟩])) ∧
    (∀ (a b : Nat) (s : MRange),
       updateMarkersBody ⟨some s, none⟩ ⟨a, a + b + 1⟩ =
         (⟨none, some ⟨a, a + b + 1⟩⟩,
          [Effect.openChange, Effect.removeMarker "drop-target:position",
           Effect.addMarker "drop-target:range" ⟨a, a + b + 1⟩])) := by
  refine ⟨fun ops => applyMarkerOps_atMostOne ops Markers.empty rfl,
          fun st => by rw [removeDraggingMarkers_eq], ?_, ?_⟩
  · intro p s
    simp [updateMarkersBody, markerKindOf, MRange.isCollapsed, MarkerKind.other,
      Markers.get, Markers.set, MarkerKind.name]
  · intro a b s
    have hne : (⟨a, a + b + 1⟩ : MRange).isCollapsed = false := by
      simp [MRange.isCollapsed]
      omega
    simp [updateMarkersBody, markerKindOf, hne, MarkerKind.other,
      Markers.get, Markers.set, MarkerKind.name]

/-- Claim C2 (amended): a drop whose resolved target range lies strictly
inside the dragged source range is a no-op — the document content is
unchanged, no content is deleted or inserted, the dragged range is detached
and nulled, the insertion pipeline is not reached (`evt.stop` is not called),
and the data transfer is returned unchanged. (The original claim's "transfer
reject affordance is set" conjunct is refuted by the counterexample: this
branch never writes `dropEffect`.) -/
theorem dropSelfOverlap_noop_C2 :
    ∀ (env : Engine) (st : ClipState) (dt : DataTransfer) (data : InputData)
      (R T : MRange),
      st.draggedRange = some R →
      R.start < T.start → T.endPos < R.endPos →
      (clipboardInputHandler env st false "drop" dt (some T) data).1.state.model.doc
          = st.model.doc ∧
      (∀ e ∈ (clipboardInputHandler env st false "drop" dt (some T) data).1.trace,
        e.isDelete = false ∧ e.isInsert = false) ∧
      (clipboardInputHandler env st false "drop" dt (some T) data).1.state.draggedRange
          = none ∧
      (clipboardInputHandler env st false "drop" dt (some T) data).1.stopped = false ∧
      (clipboardInputHandler env st false "drop" dt (some T) data).2 = dt := by
  intro env st dt data R T hR hs he
  have hcont : R.containsRange T true = true := by
    simp only [MRange.containsRange, Bool.and_eq_true, Bool.or_eq_true,
      decide_eq_true_eq]
    exact ⟨Or.inl hs, Or.inl he⟩
  set st1 : ClipState :=
    { st with model := { st.model with selection := ⟨T, env.attrsAt T⟩ } } with hst1
  have hstep : clipboardInputHandler env st false "drop" dt (some T) data =
      (⟨(finalizeDragging env st1 false).1,
        [Effect.openChange, Effect.setSelection T] ++
          (finalizeDragging env st1 false).2,
        false⟩, dt) := by
    simp [clipboardInputHandler, hst1, hR, hcont]
  obtain ⟨hfin, hclean⟩ := finalizeDragging_false_spec env st1
  rw [hstep]
  refine ⟨by rw [hfin], ?_, by rw [hfin], rfl, rfl⟩
  intro e he'
  rcases List.mem_append.mp he' with h1 | h2
  · fin_cases h1 <;> exact ⟨rfl, rfl⟩
  · exact dragCleanup_not_content e (hclean e h2)

/-- Concrete engine instance used only to evaluate universally quantified
theorems on closed inputs. -/
def testEngine : Engine where
  isGecko := false
  schema := ⟨["imageBlock"], ["bold"]⟩
  deleteContent := fun m =>
    ⟨m.doc, ⟨⟨m.selection.range.start, m.selection.range.start⟩, [("linkHref", "u")]⟩⟩
  deleteRangeContent := fun m _ => m
  insertContent := fun m f => ⟨m.doc ++ f, m.selection⟩
  attrsAt := fun _ => []

/-- Concrete plugin state with an active drag of the range 0..10. -/
def overlapState : ClipState :=
  ⟨⟨[MNode.text [] "abcdefghij"], ⟨⟨1, 4⟩, []⟩⟩, some ⟨0, 10⟩, none,
   Markers.empty, ThrottleState.initial⟩

/-- Concrete data transfer of an in-progress move drag. -/
def overlapDT : DataTransfer := ⟨"copyMove", "copyMove", false⟩

/-- Concrete input payload accompanying the drop. -/
def overlapInput : InputData := ⟨false, [MNode.text [] "x"], false⟩

theorem dropSelfOverlap_noop_C2_witness :
    (overlapState.draggedRange = some ⟨0, 10⟩ ∧ (0 : Nat) < 3 ∧ (3 : Nat) < 10) ∧
    (clipboardInputHandler testEngine overlapState false "drop" overlapDT
        (some ⟨3, 3⟩) overlapInput).1.state.model.doc = overlapState.model.doc ∧
    (clipboardInputHandler testEngine overlapState false "drop" overlapDT
        (some ⟨3, 3⟩) overlapInput).2 = overlapDT :=
  have h := dropSelfOverlap_noop_C2 testEngine overlapState overlapDT overlapInput
    ⟨0, 10⟩ ⟨3, 3⟩ rfl (by decide) (by decide)
  ⟨⟨rfl, by decide, by decide⟩, h.1, h.2.2.2.2⟩

/-- Counterexample to claim C2 as stated: on a self-overlapping drop the code
merely finalizes with `moved = false` and returns; the clipboardInput drop
branch never writes `dataTransfer.dropEffect`, so the transfer reject
affordance is NOT set (the transfer keeps its prior `copyMove` value instead
of `none`), even though the no-op part of the claim holds. -/
theorem dropSelfOverlap_C2_counterexample :
    overlapState.draggedRange = some ⟨0, 10⟩ ∧
    (0 : Nat) < 3 ∧ (3 : Nat) < 10 ∧
    ((clipboardInputHandler testEngine overlapState false "drop" overlapDT
        (some ⟨3, 3⟩) overlapInput).2).dropEffect = "copyMove" ∧
    "copyMove" ≠ "none" :=
  ⟨rfl, by decide, by decide, rfl, by decide⟩

/-- Claim C9: on cut the selected content is serialized
(`getSelectedContent`, then written to the transfer) strictly before the
deletion of the source selection, which is a separate second step — the trace
equation exhibits the order and the index inequality makes it explicit. In
read-only mode cut only prevents the default (no serialization, no deletion),
copy still serializes and never deletes, and the whole paste/drop acceptance
path is stopped by the highest-priority `clipboardInput` guard before any
effect. -/
theorem cutSerializeThenDelete_C9 :
    (∀ ce : Bool, cutHandler false ce =
       [Effect.preventDefault, Effect.getSelectedContent] ++
       (if ce then []
        else [Effect.setData "text/html", Effect.setData "text/plain"]) ++
       [Effect.deleteSelContent false]) ∧
    (∀ ce : Bool,
       (cutHandler false ce).findIdx Effect.isSerialize <
         (cutHandler false ce).findIdx Effect.isDelete) ∧
    (∀ ce : Bool, cutHandler true ce = [Effect.preventDefault]) ∧
    (∀ ce : Bool, (copyHandler ce).any Effect.isSerialize = true ∧
       (copyHandler ce).any Effect.isDelete = false) ∧
    (∀ (env : Engine) (st : ClipState) (method : String) (dt : DataTransfer)
       (rt : Option MRange) (data : InputData),
       clipboardInputHandler env st true method dt rt data =
         (⟨st, [], true⟩, dt)) := by
  refine ⟨?_, ?_, ?_, ?_, ?_⟩
  · intro ce; cases ce <;> rfl
  · intro ce; cases ce <;> decide
  · intro ce; cases ce <;> rfl
  · intro ce; cases ce <;> exact ⟨rfl, rfl⟩
  · intro env st method dt rt data; rfl

theorem getAttr_setAttribute (k v : String) (a : Attrs) (k2 : String) :
    getAttr (setAttribute k v a) k2 = if k == k2 then some v else getAttr a k2 := by
  induction a with
  | nil => rfl
  | cons p rest ih =>
    by_cases hp : (p.1 == k) = true
    · by_cases hk : (k == k2) = true
      · simp [getAttr, setAttribute, hp, hk]
      · have hk' : (k == k2) = false := by simpa using hk
        have hpk2 : (p.1 == k2) = false := by
          have e1 : p.1 = k := by simpa using hp
          rw [e1]; exact hk'
        simp [getAttr, setAttribute, hp, hk', hpk2]
    · have hp' : (p.1 == k) = false := by simpa using hp
      by_cases hk2 : (p.1 == k2) = true
      · have e1 : p.1 = k2 := by simpa using hk2
        have e2 : p.1 ≠ k := by simpa using hp
        have hne : k ≠ k2 := fun e => e2 (e1.trans e.symm)
        have hkf : (k == k2) = false := by simpa using hne
        simp [setAttribute, getAttr, hp', hk2, hkf]
      · have hk2' : (p.1 == k2) = false := by simpa using hk2
        simp [setAttribute, getAttr, hp', hk2', ih]

theorem getAttr_setAttributes (ta a : Attrs) (k : String) :
    getAttr (setAttributes ta a) k =
      match lastAssigned ta k with
      | some v => some v
      | none => getAttr a k := by
  induction ta generalizing a with
  | nil => rfl
  | cons p rest ih =>
    have hfold : setAttributes (p :: rest) a =
        setAttributes rest (setAttribute p.1 p.2 a) := rfl
    rw [hfold, ih]
    cases hl : lastAssigned rest k with
    | some v => simp [lastAssigned, hl]
    | none =>
      simp only [lastAssigned, hl]
      rw [getAttr_setAttribute]
      by_cases hp : (p.1 == k) = true <;> simp [hp]

mutual
theorem textRunsNode_apply (ta : Attrs) : ∀ n : MNode,
    textRunsNode (applyTextAttrsNode ta n) =
      (textRunsNode n).map (fun p => (setAttributes ta p.1, p.2))
  | .text a s => by simp [applyTextAttrsNode, textRunsNode]
  | .element n a cs => by
      simp [applyTextAttrsNode, textRunsNode, textRunsList_apply ta cs]

theorem textRunsList_apply (ta : Attrs) : ∀ l : List MNode,
    textRunsList (applyTextAttrsList ta l) =
      (textRunsList l).map (fun p => (setAttributes ta p.1, p.2))
  | [] => rfl
  | c :: cs => by
      simp [applyTextAttrsList, textRunsList, textRunsNode_apply ta c,
        textRunsList_apply ta cs]
end

/-- Claim C1: for a plain-text classified insertion (the caller's
`asPlainText` flag, or a single top-level non-object attribute-free child),
the listener captures the selection's formatting-category attributes from the
pre-deletion selection, deletes the non-collapsed selection's content with
`doNotAutoparagraph: true` (no deletion when collapsed), unions them with all
attributes surviving on the selection after the deletion, and applies that
union to every text run of the fragment with `writer.setAttributes`; for every
key of the union the node's previous value is overwritten (the last binding of
the union wins), while keys outside the union keep the node's value. -/
theorem plainTextAttrInheritance_C1 :
    ∀ (env : Engine) (st : ClipState) (dt : DataTransfer) (data : InputData)
      (moved : Bool) (st1 : ClipState) (trFin : List Effect)
      (st2 : ClipState) (ta : Attrs),
      data.contentIsEmpty = false →
      data.convertedFragment ≠ [] →
      (data.asPlainText || isPlainTextFragment data.convertedFragment env.schema)
          = true →
      moved = ((if env.isGecko then dt.dropEffect else dt.effectAllowed) == "move" ||
               (if env.isGecko then dt.dropEffect else dt.effectAllowed) == "copyMove") →
      (st1, trFin) = finalizeDragging env st moved →
      st2 = (if st1.model.selection.isCollapsed then st1
             else { st1 with model := env.deleteContent st1.model }) →
      ta = st1.model.selection.attrs.filter (fun kv => env.schema.isFormatting kv.1)
             ++ st2.model.selection.attrs →
      (inputTransformationHandler env st dt data).trace =
          [Effect.openChange] ++ trFin ++
          (if st1.model.selection.isCollapsed then []
           else [Effect.deleteSelContent true]) ++
          [Effect.setTextAttributes ta,
           Effect.insertContent (applyTextAttrsList ta data.convertedFragment)] ∧
      (inputTransformationHandler env st dt data).state =
          { st2 with model := (env.insertContent st2.model
              (applyTextAttrsList ta data.convertedFragment)) } ∧
      (inputTransformationHandler env st dt data).stopped = true ∧
      textRunsList (applyTextAttrsList ta data.convertedFragment) =
          (textRunsList data.convertedFragment).map
            (fun p => (setAttributes ta p.1, p.2)) ∧
      (∀ p ∈ textRunsList data.convertedFragment, ∀ k,
        getAttr (setAttributes ta p.1) k =
          match lastAssigned ta k with
          | some v => some v
          | none => getAttr p.1 k) := by
  intro env st dt data moved st1 trFin st2 ta h1 h2 h3 hm hfin hst2 hta
  have hst1 : st1 = (finalizeDragging env st moved).1 := by rw [← hfin]
  have htrFin : trFin = (finalizeDragging env st moved).2 := by rw [← hfin]
  have hlen : (data.convertedFragment.length == 0) = false := by
    cases hc : data.convertedFragment with
    | nil => exact absurd hc h2
    | cons c cs => simp
  refine ⟨?_, ?_, ?_, textRunsList_apply ta data.convertedFragment,
          fun p _ k => getAttr_setAttributes ta p.1 k⟩ <;>
    by_cases hcol : st1.model.selection.isCollapsed = true <;>
      simp_all [inputTransformationHandler, h1, hlen, h3, hm]

/-- Concrete state for evaluating the plain-text insertion: a non-collapsed
selection carrying a formatting attribute (`bold`) and a non-formatting one
(`linkHref`). -/
def c1State : ClipState :=
  ⟨⟨[], ⟨⟨0, 5⟩, [("bold", "true"), ("linkHref", "a")]⟩⟩, none, none,
   Markers.empty, ThrottleState.initial⟩

/-- The same state after the test engine's `deleteContent`. -/
def c1State2 : ClipState :=
  ⟨⟨[], ⟨⟨0, 0⟩, [("linkHref", "u")]⟩⟩, none, none,
   Markers.empty, ThrottleState.initial⟩

/-- Concrete data transfer for a plain paste (no drag in progress). -/
def c1DT : DataTransfer := ⟨"", "", false⟩

/-- Concrete input: a one-node plain-text fragment without attributes. -/
def c1Data : InputData := ⟨false, [MNode.text [] "hi"], false⟩

/-- The attribute union the pipeline computes for `c1State`. -/
def c1TA : Attrs := [("bold", "true"), ("linkHref", "u")]

theorem plainTextAttrInheritance_C1_witness :
    c1Data.contentIsEmpty = false ∧
    (inputTransformationHandler testEngine c1State c1DT c1Data).stopped = true ∧
    ∀ k, getAttr (setAttributes c1TA []) k =
      match lastAssigned c1TA k with
      | some v => some v
      | none => getAttr ([] : Attrs) k := by
  have h := plainTextAttrInheritance_C1 testEngine c1State c1DT c1Data
    false c1State [Effect.cancelThrottle] c1State2 c1TA
    rfl (by decide) (by decide) (by decide) (by decide) (by decide) (by decide)
  exact ⟨rfl, h.2.2.1, fun k => h.2.2.2.2 ([], "hi") (by decide) k⟩

theorem findObjectAncestorRange_spec {VPos VElt Pos Rng : Type}
    (env : ResolverEnv VPos VElt Pos Rng) (el : SElement) (r : Rng)
    (h : findObjectAncestorRange env el = some r) :
    ∃ e, env.isObjectElement e = true ∧ r = env.createRangeOn e := by
  induction el with
  | root n =>
    cases ho : env.isObjectElement (.root n) <;>
      simp [findObjectAncestorRange, ho] at h
    exact ⟨.root n, ho, h.symm⟩
  | child n p ih =>
    cases ho : env.isObjectElement (.child n p) <;>
      simp [findObjectAncestorRange, ho] at h
    · exact ih h
    · exact ⟨.child n p, ho, h.symm⟩

/-- Claim C3: under the engine's documented contract that
`schema.getNearestSelectionRange` yields either a collapsed (selectable)
range or a range on an object element, every non-`None` result of
`findDropTargetRange` is a collapsed insertion range or a range spanning a
whole object element (the fallback produces the latter by climbing the
ancestor chain in `findObjectAncestorRange`); a range the schema rejects is
never produced. -/
theorem dropTargetValid_C3 :
    ∀ (VPos VElt Pos Rng : Type) (env : ResolverEnv VPos VElt Pos Rng),
      (∀ (p : Pos) (d : Dir) (r : Rng), env.getNearestSelectionRange p d = some r →
        env.rngIsCollapsed r = true ∨
        ∃ e, env.isObjectElement e = true ∧ env.rngOnElement r = some e) →
      (∀ e, env.rngOnElement (env.createRangeOn e) = some e) →
      ∀ (tvr : Option (List (VRange VPos))) (tve : VElt) (r : Rng),
        findDropTargetRange env tvr tve = some r →
        env.rngIsCollapsed r = true ∨
        ∃ e, env.isObjectElement e = true ∧ env.rngOnElement r = some e := by
  intro VPos VElt Pos Rng env hgnsr hrng tvr tve r h
  unfold findDropTargetRange at h
  rcases tvr with _ | ⟨_ | ⟨vr, rest⟩⟩ <;> simp only [Option.map] at h
  case none =>
    rcases hg : env.getNearestSelectionRange
        (env.createPositionAt (match env.toModelElement tve with
          | some e => e
          | none => env.mappedAncestorElement tve) 0) Dir.forward with _ | nr <;>
      rw [hg] at h <;> simp only [] at h
    · obtain ⟨e, he, hr⟩ := findObjectAncestorRange_spec env _ r h
      exact Or.inr ⟨e, he, by rw [hr]; exact hrng e⟩
    · cases h
      exact hgnsr _ _ _ hg
  case some.nil =>
    rcases hg : env.getNearestSelectionRange
        (env.createPositionAt (match env.toModelElement tve with
          | some e => e
          | none => env.mappedAncestorElement tve) 0) Dir.forward with _ | nr <;>
      rw [hg] at h <;> simp only [] at h
    · obtain ⟨e, he, hr⟩ := findObjectAncestorRange_spec env _ r h
      exact Or.inr ⟨e, he, by rw [hr]; exact hrng e⟩
    · cases h
      exact hgnsr _ _ _ hg
  case some.cons =>
    rcases hg : env.getNearestSelectionRange (env.toModelPosition vr.start)
        (if env.isGecko then Dir.forward else Dir.backward) with _ | nr <;>
      rw [hg] at h <;> simp only [] at h
    · obtain ⟨e, he, hr⟩ := findObjectAncestorRange_spec env _ r h
      exact Or.inr ⟨e, he, by rw [hr]; exact hrng e⟩
    · cases h
      exact hgnsr _ _ _ hg

/-- Concrete resolver environment used to evaluate the resolver theorems:
ranges are `Option SElement` (`none` standing for a collapsed text-position
range, `some e` for a range on the element `e`). -/
def resolverTestEnv : ResolverEnv Nat Unit Nat (Option SElement) where
  isGecko := false
  isObjectElement := fun _ => false
  getNearestSelectionRange := fun _ _ => some none
  createPositionAt := fun _ _ => 0
  createRangeOn := fun e => some e
  posParent := fun _ => .root "r"
  toModelPosition := fun p => p
  toModelElement := fun _ => some (.root "r")
  mappedAncestorElement := fun _ => .root "r"
  rngIsCollapsed := fun r => r.isNone
  rngOnElement := fun r => r

theorem dropTargetValid_C3_witness :
    findDropTargetRange resolverTestEnv (some [⟨0⟩]) () = some none ∧
    (resolverTestEnv.rngIsCollapsed (none : Option SElement) = true ∨
     ∃ e, resolverTestEnv.isObjectElement e = true ∧
          resolverTestEnv.rngOnElement (none : Option SElement) = some e) := by
  refine ⟨rfl, ?_⟩
  exact dropTargetValid_C3 Nat Unit Nat (Option SElement) resolverTestEnv
    (fun p d r hr => by injection hr with hh; rw [← hh]; exact Or.inl rfl)
    (fun e => rfl) (some [⟨0⟩]) () none rfl

/-- Claim C8: when a precise target position is available, the resolver calls
`schema.getNearestSelectionRange` on it with a search direction determined by
the environment's browser convention — `forward` under Gecko, `backward`
under every other engine — so the direction is an environment-dependent
policy rather than a single hardcoded convention, and both directions are
realized. -/
theorem dropDirectionPolicy_C8 :
    ∀ (VPos VElt Pos Rng : Type) (env : ResolverEnv VPos VElt Pos Rng)
      (vr : VRange VPos) (rest : List (VRange VPos)) (tve : VElt),
      (findDropTargetRange env (some (vr :: rest)) tve =
        match env.getNearestSelectionRange (env.toModelPosition vr.start)
            (if env.isGecko then Dir.forward else Dir.backward) with
        | some nr => some nr
        | none => findObjectAncestorRange env
            (env.posParent (env.toModelPosition vr.start))) ∧
      (findDropTargetRange { env with isGecko := true } (some (vr :: rest)) tve =
        match env.getNearestSelectionRange (env.toModelPosition vr.start)
            Dir.forward with
        | some nr => some nr
        | none => findObjectAncestorRange { env with isGecko := true }
            (env.posParent (env.toModelPosition vr.start))) ∧
      (findDropTargetRange { env with isGecko := false } (some (vr :: rest)) tve =
        match env.getNearestSelectionRange (env.toModelPosition vr.start)
            Dir.backward with
        | some nr => some nr
        | none => findObjectAncestorRange { env with isGecko := false }
            (env.posParent (env.toModelPosition vr.start))) := by
  intro VPos VElt Pos Rng env vr rest tve
  exact ⟨rfl, rfl, rfl⟩

/-- The throttle's pending argument, when present, is the given latest
drag-over target. -/
def tracksLatest (t : ThrottleState) (latest : Option MRange) : Prop :=
  ∀ a, t.lastArgs = some a → latest = some a

/-- The most recent drag-over target after one more session event. -/
def latestAfter (e : DragEvent) (latest : Option MRange) : Option MRange :=
  match e with
  | .dragOver _ r => some r
  | _ => latest

theorem appliedTargets_append (l1 l2 : List Effect) :
    appliedTargets (l1 ++ l2) = appliedTargets l1 ++ appliedTargets l2 := by
  induction l1 with
  | nil => rfl
  | cons e l ih => cases e <;> simp [appliedTargets, ih]

theorem updateMarkersBody_targets (m : Markers) (r x : MRange)
    (h : x ∈ appliedTargets (updateMarkersBody m r).2) : x = r := by
  obtain ⟨mp, mr⟩ := m
  cases hk : markerKindOf r <;> cases mp <;> cases mr <;>
    simp_all [updateMarkersBody, Markers.get, Markers.set, MarkerKind.other,
      appliedTargets] <;>
    revert h <;> split <;> simp [appliedTargets]

theorem applyInvocations_targets (m : Markers) (invs : List MRange) (x : MRange)
    (h : x ∈ appliedTargets (applyInvocations m invs).2) : x ∈ invs := by
  induction invs generalizing m with
  | nil => simp [applyInvocations, appliedTargets] at h
  | cons r rs ih =>
    unfold applyInvocations at h
    rw [appliedTargets_append] at h
    rcases List.mem_append.mp h with h1 | h2
    · exact (updateMarkersBody_targets m r x h1) ▸ List.mem_cons_self r rs
    · exact List.mem_cons_of_mem r (ih _ h2)

theorem throttleCall_fresh (t : ThrottleState) (time : Nat) (r x : MRange)
    (h : x ∈ (t.call time r).2) : x = r := by
  unfold ThrottleState.call ThrottleState.invokeFunc at h
  by_cases hi : t.shouldInvoke time = true <;>
    simp [hi] at h <;>
    cases ht : t.timerDeadline <;> simp_all

theorem throttleCall_lastArgs (t : ThrottleState) (time : Nat) (r : MRange) :
    ((t.call time r).1).lastArgs = none ∨ ((t.call time r).1).lastArgs = some r := by
  unfold ThrottleState.call ThrottleState.invokeFunc
  by_cases hi : t.shouldInvoke time = true <;>
    cases ht : t.timerDeadline <;> simp [hi, ht]

theorem throttleTimer_pending (t : ThrottleState) (time : Nat) (x : MRange)
    (h : x ∈ (t.timerFire time).2) : t.lastArgs = some x := by
  unfold ThrottleState.timerFire ThrottleState.invokeFunc at h
  split at h
  · simp at h
  · split at h
    · simp at h
    · split at h
      · cases hl : t.lastArgs with
        | none => simp [hl] at h
        | some a =>
          simp [hl] at h
          rw [h]
      · simp at h

theorem throttleTimer_lastArgs (t : ThrottleState) (time : Nat) :
    ((t.timerFire time).1).lastArgs = none ∨
    ((t.timerFire time).1).lastArgs = t.lastArgs := by
  unfold ThrottleState.timerFire ThrottleState.invokeFunc
  cases hd : t.timerDeadline <;> simp [hd]
  split
  · simp
  · split
    · cases hl : t.lastArgs <;> simp [hl]
    · simp

theorem finalizeDragging_throttle (env : Engine) (st : ClipState) (m : Bool) :
    (finalizeDragging env st m).1.throttle = ThrottleState.initial := by
  obtain ⟨mdl, dr, de, ⟨mp, mr⟩, th⟩ := st
  cases dr <;> cases m <;> cases de <;> cases mp <;> cases mr <;> rfl

theorem throttleTimerEvent_idle (st : ClipState) (t : Nat)
    (h : st.throttle = ThrottleState.initial) :
    throttleTimerEvent st t = (st, []) := by
  have hcalc : throttleTimerEvent st t =
      ({ st with throttle := ThrottleState.initial, markers := st.markers }, []) := by
    unfold throttleTimerEvent
    rw [h]
    rfl
  rw [hcalc, ← h]

/-- Claim C4 (amended): every marker update the throttled wrapper actually
applies uses the most recent drag-over target — a leading/`maxWait` invocation
applies the current event's own target, a trailing invocation applies exactly
the pending argument, and the pending argument always tracks the latest
drag-over target. After `_finalizeDragging` or `destroy` (both call the
wrapper's `cancel`) no pending update can apply: the trailing timer is a
no-op. (The original claim's "the final drag-over update before drop is
flushed on finalize, never dropped" is refuted by the counterexample: finalize
cancels, so a pending trailing update is discarded, not flushed.) -/
theorem throttledMarkers_C4 :
    (∀ (env : Engine) (st : ClipState) (t : Nat) (r x : MRange),
       x ∈ appliedTargets (dragStep env st (.dragOver t r)).2 → x = r) ∧
    (∀ (env : Engine) (st : ClipState) (t : Nat) (x : MRange),
       x ∈ appliedTargets (dragStep env st (.timerFire t)).2 →
       st.throttle.lastArgs = some x) ∧
    (∀ (env : Engine) (st : ClipState) (e : DragEvent) (latest : Option MRange),
       tracksLatest st.throttle latest →
       tracksLatest ((dragStep env st e).1).throttle (latestAfter e latest)) ∧
    (∀ (env : Engine) (st : ClipState) (m : Bool) (t : Nat),
       throttleTimerEvent (finalizeDragging env st m).1 t =
         ((finalizeDragging env st m).1, [])) ∧
    (∀ (st : ClipState) (t : Nat),
       throttleTimerEvent (destroyPlugin st).1 t = ((destroyPlugin st).1, [])) := by
  refine ⟨?_, ?_, ?_, ?_, ?_⟩
  · intro env st t r x hx
    exact throttleCall_fresh st.throttle t r x
      (applyInvocations_targets st.markers _ x hx)
  · intro env st t x hx
    exact throttleTimer_pending st.throttle t x
      (applyInvocations_targets st.markers _ x hx)
  · intro env st e latest h
    cases e with
    | dragOver t r =>
      intro a ha
      have ha' : ((st.throttle.call t r).1).lastArgs = some a := ha
      rcases throttleCall_lastArgs st.throttle t r with h0 | h0
      · rw [h0] at ha'; cases ha'
      · rw [h0] at ha'
        exact congrArg some (Option.some.inj ha')
    | timerFire t =>
      intro a ha
      have ha' : ((st.throttle.timerFire t).1).lastArgs = some a := ha
      rcases throttleTimer_lastArgs st.throttle t with h0 | h0
      · rw [h0] at ha'; cases ha'
      · rw [h0] at ha'
        exact h a ha'
    | finalize m =>
      intro a ha
      rw [show (dragStep env st (.finalize m)).1 = (finalizeDragging env st m).1
            from rfl, finalizeDragging_throttle] at ha
      exact absurd ha (by simp [ThrottleState.initial])
    | teardown =>
      intro a ha
      exact absurd ha (by
        obtain ⟨mdl, dr, de, mk, th⟩ := st
        cases dr <;> simp [dragStep, destroyPlugin, ThrottleState.cancel,
          ThrottleState.initial])
  · intro env st m t
    exact throttleTimerEvent_idle _ t (finalizeDragging_throttle env st m)
  · intro st t
    refine throttleTimerEvent_idle _ t ?_
    obtain ⟨mdl, dr, de, mk, th⟩ := st
    cases dr <;> rfl

/-- Concrete idle plugin state for the drag-session runs. -/
def dragInitState : ClipState :=
  ⟨⟨[], ⟨⟨0, 0⟩, []⟩⟩, none, none, Markers.empty, ThrottleState.initial⟩

theorem throttledMarkers_C4_witness :
    tracksLatest ((dragStep testEngine dragInitState (.dragOver 0 ⟨1, 1⟩)).1).throttle
      (latestAfter (.dragOver 0 ⟨1, 1⟩) none) ∧
    throttleTimerEvent (finalizeDragging testEngine dragInitState false).1 50 =
      ((finalizeDragging testEngine dragInitState false).1, []) := by
  constructor
  · exact throttledMarkers_C4.2.2.1 testEngine dragInitState (.dragOver 0 ⟨1, 1⟩) none
      (fun a ha => absurd ha (by simp [dragInitState, ThrottleState.initial]))
  · exact throttledMarkers_C4.2.2.2.1 testEngine dragInitState false 50

/-- Counterexample to claim C4 as stated: two drag-over ticks 10 ms apart
followed by a drop-side finalize. The first target is applied on the leading
edge; the second becomes the pending trailing argument; finalize runs
`_updateMarkersThrottled.cancel()` (clipboard.js line 458), which discards it.
The final drag-over update is therefore dropped, not flushed: only the first
target is ever applied, and nothing remains pending. -/
theorem throttledMarkers_C4_counterexample :
    appliedTargets (dragRun testEngine dragInitState
      [.dragOver 0 ⟨1, 1⟩, .dragOver 10 ⟨5, 5⟩, .finalize false]).2 = [⟨1, 1⟩] ∧
    (⟨5, 5⟩ : MRange) ∉ appliedTargets (dragRun testEngine dragInitState
      [.dragOver 0 ⟨1, 1⟩, .dragOver 10 ⟨5, 5⟩, .finalize false]).2 ∧
    ((dragRun testEngine dragInitState
      [.dragOver 0 ⟨1, 1⟩, .dragOver 10 ⟨5, 5⟩, .finalize false]).1).throttle.lastArgs
      = none := by
  refine ⟨by decide, by decide, by decide⟩

end ClipboardModel
